import Mathlib

/-!
Verification of the timing-sequence synthesis core of `cardio-audio-sleep`.

The Python function `generate_async_timings` (src/cardio_audio_sleep/utils/
async_timings.py) is embedded over `ℚ` (exact rationals standing for the
numeric values):

* `ieiDiffs` embeds `np.diff`;
* `percentile` embeds `np.percentile` with the default linear interpolation:
  sort the data, take the virtual position `q * (m - 1) / 100`, and
  interpolate linearly between the two neighbouring order statistics;
* `retainedPool` embeds `diff[mask]` for the mask
  `np.where((lo <= diff) & (diff <= hi))`;
* `drawnDelays` embeds `np.random.choice(pool, size, replace=True)`: the
  random source is a stream `rng : ℕ → ℕ` of raw draws, the k-th delay is
  the pool entry at index `rng k % pool.length`;
* `cumsum` embeds `timings = np.zeros((n,))` followed by the loop
  `timings[k+1] = timings[k] + delay`;
* `generate_async_timings` chains them, returning `Except GenError _`:
  `invalidPerc` is the `ValueError` on `perc`, `emptyDiff` the error numpy
  raises when `np.percentile` receives a zero-size array (input of length
  < 2), `emptyPool` the `assert diff[mask].size != 0` failure.

The configuration loader `load_config` (src/cardio_audio_sleep/config/
config.py) is embedded further below in namespace `Config`.
-/

namespace CardioAudioSleep

/-- Error outcomes of `generate_async_timings`: the `ValueError` on a bad
`perc`, the numpy error on an empty diff array, and the `AssertionError`
when the trimmed pool is empty. -/
inductive GenError where
  | invalidPerc : GenError
  | emptyDiff : GenError
  | emptyPool : GenError
deriving DecidableEq, Repr

/-- `np.diff(sequence_timings)`: the `n-1` consecutive differences. -/
def ieiDiffs (xs : List ℚ) : List ℚ :=
  List.zipWith (fun a b => b - a) xs xs.tail

/-- The index of the order statistic below the virtual position
`q * (m - 1) / 100` used by numpy's linear-interpolation percentile
(`floor` of the virtual position, clamped to `ℕ`). -/
def pctIndex (m : ℕ) (q : ℚ) : ℕ :=
  (Int.floor (q * ((m : ℚ) - 1) / 100)).toNat

/-- Linear interpolation between the order statistics of the sorted data
`s` at the virtual position `q * (s.length - 1) / 100`. -/
def pctInterp (s : List ℚ) (q : ℚ) : ℚ :=
  if pctIndex s.length q + 1 < s.length then
    s.getD (pctIndex s.length q) 0 +
      (q * ((s.length : ℚ) - 1) / 100 - (pctIndex s.length q : ℚ)) *
        (s.getD (pctIndex s.length q + 1) 0 - s.getD (pctIndex s.length q) 0)
  else s.getD (s.length - 1) 0

/-- `np.percentile(data, q)` with the default linear interpolation. -/
def percentile (xs : List ℚ) (q : ℚ) : ℚ :=
  pctInterp (List.insertionSort (· ≤ ·) xs) q

/-- `diff[mask]` where
`mask = np.where((percentile(diff, perc) <= diff) & (diff <= percentile(diff, 100 - perc)))`:
the diffs lying in the inclusive percentile band, kept in original order. -/
def retainedPool (xs : List ℚ) (perc : ℚ) : List ℚ :=
  (ieiDiffs xs).filter (fun d =>
    decide (percentile (ieiDiffs xs) perc ≤ d ∧
      d ≤ percentile (ieiDiffs xs) (100 - perc)))

/-- `np.random.choice(pool, size=n, replace=True)`: `n` draws with
replacement from the pool; the random source is a stream `rng` of raw
draws and the k-th delay is the pool entry at index `rng k % pool.length`. -/
def drawnDelays (pool : List ℚ) (n : ℕ) (rng : ℕ → ℕ) : List ℚ :=
  (List.range n).map (fun k => pool.getD (rng k % pool.length) 0)

/-- The reconstruction loop `timings[k+1] = timings[k] + delays[k]`,
started from the first value `t`. -/
def cumsumFrom (t : ℚ) : List ℚ → List ℚ
  | [] => [t]
  | d :: ds => t :: cumsumFrom (t + d) ds

/-- `timings = np.zeros((n,))` followed by the reconstruction loop: the
cumulative sums of the delays, prefixed with `0`. -/
def cumsum (ds : List ℚ) : List ℚ := cumsumFrom 0 ds

/-- `generate_async_timings(sequence_timings, perc)` with the random
source made explicit. -/
def generate_async_timings (xs : List ℚ) (perc : ℚ) (rng : ℕ → ℕ) :
    Except GenError (List ℚ) :=
  if perc < 0 ∨ 50 ≤ perc then .error .invalidPerc
  else if ieiDiffs xs = [] then .error .emptyDiff
  else if retainedPool xs perc = [] then .error .emptyPool
  else .ok (cumsum (drawnDelays (retainedPool xs perc) (xs.length - 1) rng))

/-! ### Structural lemmas -/

lemma length_ieiDiffs (xs : List ℚ) : (ieiDiffs xs).length = xs.length - 1 := by
  cases xs with
  | nil => rfl
  | cons a t => simp [ieiDiffs, Nat.min_def]

lemma length_cumsumFrom (t : ℚ) (ds : List ℚ) :
    (cumsumFrom t ds).length = ds.length + 1 := by
  induction ds generalizing t with
  | nil => rfl
  | cons d ds ih => simp [cumsumFrom, ih]

lemma cumsumFrom_getD_zero (t : ℚ) (ds : List ℚ) :
    (cumsumFrom t ds).getD 0 0 = t := by
  cases ds <;> rfl

lemma cumsumFrom_getD_succ (t : ℚ) (ds : List ℚ) (k : ℕ) (hk : k < ds.length) :
    (cumsumFrom t ds).getD (k + 1) 0 =
      (cumsumFrom t ds).getD k 0 + ds.getD k 0 := by
  induction ds generalizing t k with
  | nil => exact absurd hk (by simp)
  | cons d ds ih =>
    cases k with
    | zero => cases ds <;> simp [cumsumFrom]
    | succ k =>
      have hk' : k < ds.length := by simpa using hk
      simpa [cumsumFrom] using ih (t + d) k hk'

lemma length_drawnDelays (pool : List ℚ) (n : ℕ) (rng : ℕ → ℕ) :
    (drawnDelays pool n rng).length = n := by
  simp [drawnDelays]

lemma drawnDelays_getD (pool : List ℚ) (n : ℕ) (rng : ℕ → ℕ) (k : ℕ)
    (hk : k < n) :
    (drawnDelays pool n rng).getD k 0 = pool.getD (rng k % pool.length) 0 := by
  have h1 : k < (List.range n).length := by simpa using hk
  rw [drawnDelays, List.getD_eq_getElem _ _ (by simpa using hk),
    List.getElem_map, List.getElem_range]

lemma drawnDelays_mem (pool : List ℚ) (n : ℕ) (rng : ℕ → ℕ)
    (hp : pool ≠ []) (d : ℚ) (hd : d ∈ drawnDelays pool n rng) : d ∈ pool := by
  rcases List.mem_map.mp hd with ⟨k, _, hk⟩
  have hlen : 0 < pool.length := List.length_pos.mpr hp
  have hidx : rng k % pool.length < pool.length := Nat.mod_lt _ hlen
  rw [← hk, List.getD_eq_getElem _ _ hidx]
  exact List.getElem_mem _

lemma retainedPool_mem (xs : List ℚ) (perc : ℚ) (d : ℚ)
    (hd : d ∈ retainedPool xs perc) :
    d ∈ ieiDiffs xs ∧ percentile (ieiDiffs xs) perc ≤ d ∧
      d ≤ percentile (ieiDiffs xs) (100 - perc) := by
  have h := List.mem_filter.mp hd
  refine ⟨h.1, ?_⟩
  simpa using h.2

lemma retainedPool_ne_nil_of (xs : List ℚ) (perc : ℚ)
    (h : retainedPool xs perc ≠ []) : ieiDiffs xs ≠ [] := by
  intro hd
  exact h (by simp [retainedPool, hd])

/-- On valid inputs the function reaches the reconstruction step and
returns the cumulative sums of the drawn delays. -/
lemma generate_ok (xs : List ℚ) (perc : ℚ) (rng : ℕ → ℕ)
    (h1 : ¬(perc < 0 ∨ 50 ≤ perc)) (h3 : retainedPool xs perc ≠ []) :
    generate_async_timings xs perc rng =
      .ok (cumsum (drawnDelays (retainedPool xs perc) (xs.length - 1) rng)) := by
  have h2 : ieiDiffs xs ≠ [] := retainedPool_ne_nil_of xs perc h3
  rw [generate_async_timings, if_neg h1, if_neg h2, if_neg h3]

lemma generate_async_timings_ok_iff (xs : List ℚ) (perc : ℚ) (rng : ℕ → ℕ)
    (ts : List ℚ) :
    generate_async_timings xs perc rng = .ok ts ↔
      ¬(perc < 0 ∨ 50 ≤ perc) ∧ retainedPool xs perc ≠ [] ∧
        ts = cumsum (drawnDelays (retainedPool xs perc) (xs.length - 1) rng) := by
  constructor
  · intro h
    by_cases h1 : perc < 0 ∨ 50 ≤ perc
    · rw [generate_async_timings, if_pos h1] at h; exact absurd h (by simp)
    by_cases h2 : ieiDiffs xs = []
    · rw [generate_async_timings, if_neg h1, if_pos h2] at h
      exact absurd h (by simp)
    by_cases h3 : retainedPool xs perc = []
    · rw [generate_async_timings, if_neg h1, if_neg h2, if_pos h3] at h
      exact absurd h (by simp)
    · rw [generate_ok xs perc rng h1 h3] at h
      exact ⟨h1, h3, (Except.ok.injEq _ _ ▸ h.symm :)⟩
  · rintro ⟨h1, h3, rfl⟩
    exact generate_ok xs perc rng h1 h3

lemma ieiDiffs_cons (a b : ℚ) (u : List ℚ) :
    ieiDiffs (a :: b :: u) = (b - a) :: ieiDiffs (b :: u) := rfl

lemma ieiDiffs_pos (xs : List ℚ) :
    xs.Chain' (· < ·) → ∀ d ∈ ieiDiffs xs, 0 < d := by
  induction xs with
  | nil => intro _ d hd; simp [ieiDiffs] at hd
  | cons a t ih =>
    cases t with
    | nil => intro _ d hd; simp [ieiDiffs] at hd
    | cons b u =>
      intro hmono d hd
      rw [ieiDiffs_cons] at hd
      rcases List.chain'_cons.mp hmono with ⟨hab, ht⟩
      rcases List.mem_cons.mp hd with rfl | hd'
      · linarith
      · exact ih ht d hd'

lemma sorted_getD_zero_le (s : List ℚ) (hs : s.Sorted (· ≤ ·)) (x : ℚ)
    (hx : x ∈ s) : s.getD 0 0 ≤ x := by
  cases s with
  | nil => exact absurd hx (by simp)
  | cons a t =>
    rcases List.mem_cons.mp hx with rfl | hx'
    · simp
    · simpa using (List.sorted_cons.mp hs).1 x hx'

lemma sorted_le_getD_last (s : List ℚ) (hs : s.Sorted (· ≤ ·)) (x : ℚ)
    (hx : x ∈ s) : x ≤ s.getD (s.length - 1) 0 := by
  induction s with
  | nil => exact absurd hx (by simp)
  | cons a t ih =>
    cases t with
    | nil =>
      rcases List.mem_cons.mp hx with rfl | hx'
      · simp
      · exact absurd hx' (by simp)
    | cons b u =>
      have hstep : (a :: b :: u).getD ((a :: b :: u).length - 1) 0 =
          (b :: u).getD ((b :: u).length - 1) 0 := by
        simp [List.getD_cons_succ]
      rw [hstep]
      have hs' : (b :: u).Sorted (· ≤ ·) := (List.sorted_cons.mp hs).2
      rcases List.mem_cons.mp hx with rfl | hx'
      · have hmem : (b :: u).getD ((b :: u).length - 1) 0 ∈ b :: u := by
          rw [List.getD_eq_getElem _ _ (by simp)]
          exact List.getElem_mem _
        exact (List.sorted_cons.mp hs).1 _ hmem
      · exact ih hs' hx'

lemma pctIndex_zero (m : ℕ) : pctIndex m 0 = 0 := by
  simp [pctIndex]

lemma pctIndex_hundred (m : ℕ) (hm : 1 ≤ m) : pctIndex m 100 = m - 1 := by
  unfold pctIndex
  have h1 : (100 : ℚ) * ((m : ℚ) - 1) / 100 = ((m - 1 : ℕ) : ℚ) := by
    push_cast [hm]
    ring
  rw [h1, Int.floor_natCast]
  exact Int.toNat_natCast _

lemma percentile_zero (xs : List ℚ) :
    percentile xs 0 = (List.insertionSort (· ≤ ·) xs).getD 0 0 := by
  unfold percentile pctInterp
  rw [pctIndex_zero]
  by_cases h : 0 + 1 < (List.insertionSort (· ≤ ·) xs).length
  · rw [if_pos h]
    push_cast
    ring_nf
  · rw [if_neg h]
    have hle : (List.insertionSort (· ≤ ·) xs).length - 1 = 0 := by omega
    rw [hle]

lemma percentile_hundred (xs : List ℚ) :
    percentile xs 100 = (List.insertionSort (· ≤ ·) xs).getD
      ((List.insertionSort (· ≤ ·) xs).length - 1) 0 := by
  unfold percentile pctInterp
  have hcond : ¬ (pctIndex (List.insertionSort (· ≤ ·) xs).length 100 + 1 <
      (List.insertionSort (· ≤ ·) xs).length) := by
    by_cases hm : 1 ≤ (List.insertionSort (· ≤ ·) xs).length
    · rw [pctIndex_hundred _ hm]; omega
    · omega
  rw [if_neg hcond]

/-- With `perc = 0` the percentile band is `[min, max]` of the diffs, so the
filter keeps every diff. -/
lemma retainedPool_zero (xs : List ℚ) : retainedPool xs 0 = ieiDiffs xs := by
  unfold retainedPool
  apply List.filter_eq_self.mpr
  intro d hd
  have hperm : List.Perm (List.insertionSort (· ≤ ·) (ieiDiffs xs))
      (ieiDiffs xs) :=
    List.perm_insertionSort _ _
  have hsort : (List.insertionSort (· ≤ ·) (ieiDiffs xs)).Sorted (· ≤ ·) :=
    List.sorted_insertionSort _ _
  have hd' : d ∈ List.insertionSort (· ≤ ·) (ieiDiffs xs) :=
    hperm.mem_iff.mpr hd
  have h1 : percentile (ieiDiffs xs) 0 ≤ d := by
    rw [percentile_zero]
    exact sorted_getD_zero_le _ hsort d hd'
  have h2 : d ≤ percentile (ieiDiffs xs) ((100 : ℚ) - 0) := by
    norm_num
    rw [percentile_hundred]
    exact sorted_le_getD_last _ hsort d hd'
  simp only [decide_eq_true_eq]
  exact ⟨h1, h2⟩

lemma cumsumFrom_strict_mono (t : ℚ) (ds : List ℚ) (hpos : ∀ d ∈ ds, 0 < d)
    (k : ℕ) (hk : k + 1 < (cumsumFrom t ds).length) :
    (cumsumFrom t ds).getD k 0 < (cumsumFrom t ds).getD (k + 1) 0 := by
  have hk' : k < ds.length := by rw [length_cumsumFrom] at hk; omega
  rw [cumsumFrom_getD_succ t ds k hk']
  have hmem : ds.getD k 0 ∈ ds := by
    rw [List.getD_eq_getElem _ _ hk']
    exact List.getElem_mem _
  have := hpos _ hmem
  linarith

/-! ### Concrete evaluations -/

lemma sort_ones :
    List.insertionSort (· ≤ ·) ([1, 1, 1, 1, 1] : List ℚ) = [1, 1, 1, 1, 1] := by
  norm_num [List.insertionSort, List.orderedInsert]

lemma diffs_0to5 : ieiDiffs [0, 1, 2, 3, 4, 5] = [1, 1, 1, 1, 1] := by
  norm_num [ieiDiffs]

lemma pct_ones_10 : percentile [1, 1, 1, 1, 1] 10 = 1 := by
  unfold percentile
  rw [sort_ones]
  unfold pctInterp
  have hidx : pctIndex ([1, 1, 1, 1, 1] : List ℚ).length 10 = 0 := by
    unfold pctIndex
    have h : Int.floor ((10 : ℚ) *
        (((([1, 1, 1, 1, 1] : List ℚ).length : ℕ) : ℚ) - 1) / 100) = 0 := by
      norm_num
    rw [h]
    rfl
  rw [hidx]
  norm_num

lemma pct_ones_90 : percentile [1, 1, 1, 1, 1] ((100 : ℚ) - 10) = 1 := by
  unfold percentile
  rw [sort_ones]
  unfold pctInterp
  have hidx : pctIndex ([1, 1, 1, 1, 1] : List ℚ).length ((100 : ℚ) - 10) = 3 := by
    unfold pctIndex
    have h : Int.floor (((100 : ℚ) - 10) *
        (((([1, 1, 1, 1, 1] : List ℚ).length : ℕ) : ℚ) - 1) / 100) = 3 := by
      norm_num
    rw [h]
    rfl
  rw [hidx]
  norm_num

lemma pool_0to5 : retainedPool [0, 1, 2, 3, 4, 5] 10 = [1, 1, 1, 1, 1] := by
  unfold retainedPool
  rw [diffs_0to5, pct_ones_10, pct_ones_90]
  norm_num [List.filter_cons]

lemma delays_ones (rng : ℕ → ℕ) :
    drawnDelays [1, 1, 1, 1, 1] 5 rng = [1, 1, 1, 1, 1] := by
  unfold drawnDelays
  have h5 : List.range 5 = [0, 1, 2, 3, 4] := rfl
  rw [h5]
  have hone : ∀ i : ℕ,
      List.getD ([1, 1, 1, 1, 1] : List ℚ)
        (i % ([1, 1, 1, 1, 1] : List ℚ).length) 0 = 1 := by
    intro i
    have h : i % ([1, 1, 1, 1, 1] : List ℚ).length < 5 :=
      Nat.mod_lt _ (by norm_num)
    revert h
    generalize i % ([1, 1, 1, 1, 1] : List ℚ).length = j
    intro h
    interval_cases j <;> rfl
  simp only [List.map]
  rw [hone (rng 0), hone (rng 1), hone (rng 2), hone (rng 3), hone (rng 4)]

lemma generate_012_eval :
    generate_async_timings [0, 1, 2] 0 (fun _ => 0) = .ok [0, 1, 2] := by
  have h1 : ¬((0 : ℚ) < 0 ∨ (50 : ℚ) ≤ 0) := by norm_num
  have hpool : retainedPool [0, 1, 2] 0 = [1, 1] := by
    rw [retainedPool_zero]
    norm_num [ieiDiffs]
  rw [generate_ok _ _ _ h1 (by rw [hpool]; simp)]
  rw [hpool]
  norm_num [drawnDelays, cumsum, cumsumFrom, List.range_succ]

lemma generate_013_eval :
    generate_async_timings [0, 1, 3] 0 (fun _ => 0) = .ok [0, 1, 2] := by
  have h1 : ¬((0 : ℚ) < 0 ∨ (50 : ℚ) ≤ 0) := by norm_num
  have hpool : retainedPool [0, 1, 3] 0 = [1, 2] := by
    rw [retainedPool_zero]
    norm_num [ieiDiffs]
  rw [generate_ok _ _ _ h1 (by rw [hpool]; simp)]
  rw [hpool]
  norm_num [drawnDelays, cumsum, cumsumFrom, List.range_succ]

/-! ### Claim theorems -/

/-- C1: for every input of length `n ≥ 2` and `perc ∈ [0, 50)` with a
non-empty trimmed pool, `generate_async_timings` returns a sequence of
length exactly `n` whose first element is `0` and where element `k` equals
element `k-1` plus the `k-1`-th drawn delay. -/
theorem generate_cumulative_sum_spec (xs : List ℚ) (perc : ℚ) (rng : ℕ → ℕ)
    (hn : 2 ≤ xs.length) (h0 : 0 ≤ perc) (h50 : perc < 50)
    (hpool : retainedPool xs perc ≠ []) :
    ∃ ts, generate_async_timings xs perc rng = .ok ts ∧
      ts.length = xs.length ∧ ts.getD 0 0 = 0 ∧
      ∀ k, 1 ≤ k → k < xs.length →
        ts.getD k 0 = ts.getD (k - 1) 0 +
          (drawnDelays (retainedPool xs perc) (xs.length - 1) rng).getD
            (k - 1) 0 := by
  have h1 : ¬(perc < 0 ∨ 50 ≤ perc) := by
    rw [not_or]
    exact ⟨not_lt.mpr h0, not_le.mpr h50⟩
  refine ⟨_, generate_ok xs perc rng h1 hpool, ?_, ?_, ?_⟩
  · rw [cumsum, length_cumsumFrom, length_drawnDelays]
    omega
  · exact cumsumFrom_getD_zero 0 _
  · intro k hk1 hk2
    obtain ⟨j, rfl⟩ : ∃ j, k = j + 1 := ⟨k - 1, by omega⟩
    have hj : j < (drawnDelays (retainedPool xs perc) (xs.length - 1) rng).length := by
      rw [length_drawnDelays]
      omega
    simpa using cumsumFrom_getD_succ 0 _ j hj

/-- C1 witness: instantiated at `[0, 1]`, `perc = 0`, a constant random
stream. -/
theorem generate_cumulative_sum_spec_witness :
    ∃ ts, generate_async_timings [0, 1] 0 (fun _ => 0) = .ok ts ∧
      ts.length = ([0, 1] : List ℚ).length ∧ ts.getD 0 0 = 0 ∧
      ∀ k, 1 ≤ k → k < ([0, 1] : List ℚ).length →
        ts.getD k 0 = ts.getD (k - 1) 0 +
          (drawnDelays (retainedPool [0, 1] 0) (([0, 1] : List ℚ).length - 1)
            (fun _ => 0)).getD (k - 1) 0 :=
  generate_cumulative_sum_spec [0, 1] 0 (fun _ => 0) (by norm_num)
    (le_refl 0) (by norm_num)
    (by rw [retainedPool_zero]; norm_num [ieiDiffs])

/-- C2: whenever the trimmed pool is empty (and `perc` is valid), the
function fails with an error and never returns a sequence. -/
theorem generate_empty_pool_fails (xs : List ℚ) (perc : ℚ) (rng : ℕ → ℕ)
    (h0 : 0 ≤ perc) (h50 : perc < 50) (hpool : retainedPool xs perc = []) :
    (∃ e, generate_async_timings xs perc rng = .error e) ∧
      ∀ ts, generate_async_timings xs perc rng ≠ .ok ts := by
  have h1 : ¬(perc < 0 ∨ 50 ≤ perc) := by
    rw [not_or]
    exact ⟨not_lt.mpr h0, not_le.mpr h50⟩
  constructor
  · by_cases h2 : ieiDiffs xs = []
    · exact ⟨.emptyDiff, by rw [generate_async_timings, if_neg h1, if_pos h2]⟩
    · exact ⟨.emptyPool,
        by rw [generate_async_timings, if_neg h1, if_neg h2, if_pos hpool]⟩
  · intro ts h
    exact ((generate_async_timings_ok_iff xs perc rng ts).mp h).2.1 hpool

/-- C2 witness: instantiated at the length-1 input `[0]` with `perc = 10`,
whose diff array (hence trimmed pool) is empty. -/
theorem generate_empty_pool_fails_witness :
    (∃ e, generate_async_timings [0] 10 (fun _ => 0) = .error e) ∧
      ∀ ts, generate_async_timings [0] 10 (fun _ => 0) ≠ .ok ts :=
  generate_empty_pool_fails [0] 10 (fun _ => 0) (by norm_num) (by norm_num)
    rfl

/-- C3: the invalid-argument failure is raised exactly when `perc < 0` or
`perc ≥ 50`, for every input sequence and random source alike (the check
precedes every computation on the sequence). -/
theorem generate_invalid_perc_iff (xs : List ℚ) (perc : ℚ) (rng : ℕ → ℕ) :
    generate_async_timings xs perc rng = .error .invalidPerc ↔
      perc < 0 ∨ 50 ≤ perc := by
  constructor
  · intro h
    by_contra h1
    by_cases h2 : ieiDiffs xs = []
    · rw [generate_async_timings, if_neg h1, if_pos h2] at h
      exact GenError.noConfusion (Except.error.inj h)
    by_cases h3 : retainedPool xs perc = []
    · rw [generate_async_timings, if_neg h1, if_neg h2, if_pos h3] at h
      exact GenError.noConfusion (Except.error.inj h)
    · rw [generate_ok xs perc rng h1 h3] at h
      exact Except.noConfusion h
  · intro h
    rw [generate_async_timings, if_pos h]

/-- C4: a strictly increasing input on which the call succeeds yields a
strictly increasing output. -/
theorem generate_strict_mono (xs : List ℚ) (perc : ℚ) (rng : ℕ → ℕ)
    (ts : List ℚ) (hn : 2 ≤ xs.length) (h0 : 0 ≤ perc) (h50 : perc < 50)
    (hmono : xs.Chain' (· < ·))
    (hok : generate_async_timings xs perc rng = .ok ts) :
    ∀ k, k + 1 < ts.length → ts.getD k 0 < ts.getD (k + 1) 0 := by
  rcases (generate_async_timings_ok_iff _ _ _ _).mp hok with ⟨h1, h3, rfl⟩
  intro k hk
  apply cumsumFrom_strict_mono
  · intro d hd
    have hd' := drawnDelays_mem _ _ _ h3 d hd
    exact ieiDiffs_pos xs hmono d (retainedPool_mem xs perc d hd').1
  · exact hk

/-- C4 witness: instantiated at the strictly increasing `[0, 1, 2]` with
`perc = 0` and a constant random stream, which succeeds with `[0, 1, 2]`. -/
theorem generate_strict_mono_witness :
    ([0, 1, 2] : List ℚ).getD 0 0 < ([0, 1, 2] : List ℚ).getD (0 + 1) 0 :=
  generate_strict_mono [0, 1, 2] 0 (fun _ => 0) [0, 1, 2] (by norm_num)
    (le_refl 0) (by norm_num)
    (by norm_num [List.chain'_cons, List.chain'_singleton])
    generate_012_eval 0 (by norm_num)

/-- C5: on the concrete input `[0, 1, 2, 3, 4, 5]` with `perc = 10` the
retained pool is `[1, 1, 1, 1, 1]`, so the output is `[0, 1, 2, 3, 4, 5]`
for every possible random stream. -/
theorem generate_0to5_deterministic (rng : ℕ → ℕ) :
    generate_async_timings [0, 1, 2, 3, 4, 5] 10 rng =
      .ok [0, 1, 2, 3, 4, 5] := by
  have h1 : ¬((10 : ℚ) < 0 ∨ (50 : ℚ) ≤ 10) := by norm_num
  rw [generate_ok _ _ _ h1 (by rw [pool_0to5]; simp)]
  rw [pool_0to5]
  have hlen : ([0, 1, 2, 3, 4, 5] : List ℚ).length - 1 = 5 := rfl
  rw [hlen, delays_ones rng]
  norm_num [cumsum, cumsumFrom]

/-- C6: with `perc = 0` no interval is discarded: the retained pool is the
full list of consecutive differences. -/
theorem perc_zero_discards_nothing (xs : List ℚ) (hn : 2 ≤ xs.length) :
    retainedPool xs 0 = ieiDiffs xs :=
  retainedPool_zero xs

/-- C6 witness: instantiated at `[0, 1, 3]`. -/
theorem perc_zero_discards_nothing_witness :
    retainedPool [0, 1, 3] 0 = ieiDiffs [0, 1, 3] :=
  perc_zero_discards_nothing [0, 1, 3] (by norm_num)

/-- C7: the function is deterministic in the random source: identical
inputs and an identical stream of draws give identical results. -/
theorem generate_deterministic (xs : List ℚ) (perc : ℚ) (rng₁ rng₂ : ℕ → ℕ)
    (h : ∀ k, rng₁ k = rng₂ k) :
    generate_async_timings xs perc rng₁ =
      generate_async_timings xs perc rng₂ := by
  rw [funext h]

/-- C7 witness: two syntactically different but extensionally equal random
streams. -/
theorem generate_deterministic_witness :
    generate_async_timings [0, 1] 0 (fun k => k) =
      generate_async_timings [0, 1] 0 (fun k => 0 + k) :=
  generate_deterministic [0, 1] 0 (fun k => k) (fun k => 0 + k)
    (fun k => (Nat.zero_add k).symm)

/-- C8: every consecutive gap of a successfully returned sequence is one of
the input's diffs and lies in the inclusive percentile band. -/
theorem generate_gaps_in_band (xs : List ℚ) (perc : ℚ) (rng : ℕ → ℕ)
    (ts : List ℚ) (hok : generate_async_timings xs perc rng = .ok ts) :
    ∀ k, k + 1 < ts.length →
      (ts.getD (k + 1) 0 - ts.getD k 0) ∈ ieiDiffs xs ∧
      percentile (ieiDiffs xs) perc ≤ ts.getD (k + 1) 0 - ts.getD k 0 ∧
      ts.getD (k + 1) 0 - ts.getD k 0 ≤
        percentile (ieiDiffs xs) (100 - perc) := by
  rcases (generate_async_timings_ok_iff _ _ _ _).mp hok with ⟨h1, h3, rfl⟩
  intro k hk
  have hk' : k < (drawnDelays (retainedPool xs perc) (xs.length - 1) rng).length := by
    rw [cumsum, length_cumsumFrom] at hk
    omega
  have hgap : (cumsum (drawnDelays (retainedPool xs perc) (xs.length - 1) rng)).getD (k + 1) 0 -
      (cumsum (drawnDelays (retainedPool xs perc) (xs.length - 1) rng)).getD k 0 =
      (drawnDelays (retainedPool xs perc) (xs.length - 1) rng).getD k 0 := by
    rw [cumsum, cumsumFrom_getD_succ 0 _ k hk']
    ring
  rw [hgap]
  have hmem : (drawnDelays (retainedPool xs perc) (xs.length - 1) rng).getD k 0 ∈
      drawnDelays (retainedPool xs perc) (xs.length - 1) rng := by
    rw [List.getD_eq_getElem _ _ hk']
    exact List.getElem_mem _
  exact retainedPool_mem xs perc _ (drawnDelays_mem _ _ _ h3 _ hmem)

/-- C8 witness: instantiated at `[0, 1, 3]` with `perc = 0` and a constant
random stream, which succeeds with `[0, 1, 2]`. -/
theorem generate_gaps_in_band_witness :
    (([0, 1, 2] : List ℚ).getD (0 + 1) 0 -
        ([0, 1, 2] : List ℚ).getD 0 0) ∈ ieiDiffs [0, 1, 3] ∧
    percentile (ieiDiffs [0, 1, 3]) 0 ≤
      ([0, 1, 2] : List ℚ).getD (0 + 1) 0 -
        ([0, 1, 2] : List ℚ).getD 0 0 ∧
    ([0, 1, 2] : List ℚ).getD (0 + 1) 0 -
        ([0, 1, 2] : List ℚ).getD 0 0 ≤
      percentile (ieiDiffs [0, 1, 3]) (100 - 0) :=
  generate_gaps_in_band [0, 1, 3] 0 (fun _ => 0) [0, 1, 2] generate_013_eval
    0 (by norm_num)

/-!
### The configuration loader

Embedding of `load_config` (src/cardio_audio_sleep/config/config.py): the
raw configuration (what `ConfigParser` read from `config.ini`) is a list of
named sections of string key/value pairs.  `load_config` checks the five
required sections, converts every field with `int(value)`, asserts the
required keys, then overwrites the three `edge_perc` fields with
`getfloat`.  Each exception of the Python code is an explicit error.
-/

namespace Config

/-- A typed configuration value: `int` for `int(value)` conversions,
`float` for `getfloat` reads. -/
inductive CVal where
  | int (z : ℤ) : CVal
  | float (q : ℚ) : CVal
deriving DecidableEq, Repr

/-- A raw configuration section: string key/value pairs. -/
abbrev RawSection := List (String × String)

/-- A raw configuration: named sections. -/
abbrev RawConfig := List (String × RawSection)

/-- The errors `load_config` can raise: the `ValueError` for a missing
section, the `ValueError` from `int(value)`, the `AssertionError` for a
missing key, and the `ValueError` from `getfloat`. -/
inductive CfgError where
  | missingSection : CfgError
  | intParse : CfgError
  | missingKey : CfgError
  | floatParse : CfgError
deriving DecidableEq, Repr

/-- `config.has_section` / `config[name]`. -/
def findSection (raw : RawConfig) (name : String) : Option RawSection :=
  (raw.find? (fun p => p.1 == name)).map Prod.snd

/-- The numeric value of a digit string (meaningful when all characters are
digits, which every caller checks). -/
def digitsVal (cs : List Char) : ℕ :=
  cs.foldl (fun a c => 10 * a + (c.toNat - 48)) 0

/-- Models Python `int(s)`: an optional sign followed by a non-empty run of
digits; anything else raises. -/
def parseIntStr (s : String) : Option ℤ :=
  match s.toList with
  | [] => none
  | c :: rest =>
    if c = '-' then
      if rest ≠ [] ∧ rest.all Char.isDigit then
        some (-(digitsVal rest : ℤ))
      else none
    else if c = '+' then
      if rest ≠ [] ∧ rest.all Char.isDigit then
        some ((digitsVal rest : ℤ))
      else none
    else if (c :: rest).all Char.isDigit then
      some ((digitsVal (c :: rest) : ℤ))
    else none

/-- The unsigned part of Python `float(s)`: digits, optionally a decimal
point and fractional digits, at least one digit overall. -/
def parseFloatCore (cs : List Char) : Option ℚ :=
  let ip := cs.takeWhile (fun c => c != '.')
  let rest := cs.dropWhile (fun c => c != '.')
  let fp := rest.tail
  if fp.any (fun c => c == '.') then none
  else if ip.all Char.isDigit ∧ fp.all Char.isDigit ∧ (ip ≠ [] ∨ fp ≠ []) then
    some ((digitsVal ip : ℚ) + (digitsVal fp : ℚ) / (10 : ℚ) ^ fp.length)
  else none

/-- Models Python `float(s)` as used by `ConfigParser.getfloat`. -/
def parseFloatStr (s : String) : Option ℚ :=
  match s.toList with
  | [] => none
  | c :: rest =>
    if c = '-' then (parseFloatCore rest).map (fun q => -q)
    else if c = '+' then parseFloatCore rest
    else parseFloatCore (c :: rest)

/-- The dict comprehension `{key: int(value) for key, value in section}`;
`none` when some `int(value)` raises. -/
def convertInt : RawSection → Option (List (String × CVal))
  | [] => some []
  | p :: rest =>
    (parseIntStr p.2).bind (fun z =>
      (convertInt rest).map (fun l => (p.1, CVal.int z) :: l))

/-- `key in section` on a converted section. -/
def hasKey (sec : List (String × CVal)) (k : String) : Bool :=
  sec.any (fun p => p.1 == k)

/-- The three keys asserted for the stimulus sections. -/
def stimKeysOk (sec : List (String × CVal)) : Bool :=
  hasKey sec "n_stimuli" && hasKey sec "n_omissions" && hasKey sec "edge_perc"

/-- `section[k] = config[name].getfloat(k)`: re-read the raw string for `k`
and overwrite the converted entry with its float value. -/
def setFloat (sec : List (String × CVal)) (raw : RawSection) (k : String) :
    Option (List (String × CVal)) :=
  match (raw.find? (fun p => p.1 == k)).bind (fun p => parseFloatStr p.2) with
  | none => none
  | some q =>
    some (sec.map (fun p => if p.1 == k then (p.1, CVal.float q) else p))

/-- `load_config()`, taking the raw parsed `config.ini` as input. -/
def load_config (raw : RawConfig) :
    Except CfgError (List (String × List (String × CVal))) :=
  match findSection raw "block", findSection raw "baseline",
      findSection raw "synchronous", findSection raw "isochronous",
      findSection raw "asynchronous" with
  | some blockR, some baseR, some syncR, some isoR, some asyncR =>
    match convertInt blockR, convertInt baseR, convertInt syncR,
        convertInt isoR, convertInt asyncR with
    | some block, some baseline, some sync0, some iso0, some async0 =>
      if hasKey block "inter_block" && hasKey baseline "duration" &&
          stimKeysOk sync0 && stimKeysOk iso0 && stimKeysOk async0 then
        match setFloat sync0 syncR "edge_perc", setFloat iso0 isoR "edge_perc",
            setFloat async0 asyncR "edge_perc" with
        | some syncF, some isoF, some asyncF =>
          .ok [("block", block), ("baseline", baseline), ("sync", syncF),
            ("iso", isoF), ("async", asyncF)]
        | _, _, _ => .error .floatParse
      else .error .missingKey
    | _, _, _, _, _ => .error .intParse
  | _, _, _, _, _ => .error .missingSection

lemma convertInt_int (r : RawSection) (l : List (String × CVal))
    (h : convertInt r = some l) : ∀ p ∈ l, ∃ z, p.2 = CVal.int z := by
  induction r generalizing l with
  | nil =>
    rw [convertInt] at h
    obtain rfl := Option.some.inj h
    intro p hp
    exact absurd hp (by simp)
  | cons p rest ih =>
    rw [convertInt] at h
    rcases Option.bind_eq_some.mp h with ⟨z, hz, h2⟩
    rcases Option.map_eq_some'.mp h2 with ⟨l0, hl0, rfl⟩
    intro q hq
    rcases List.mem_cons.mp hq with rfl | hq'
    · exact ⟨z, rfl⟩
    · exact ih l0 hl0 q hq'

lemma setFloat_types (sec : List (String × CVal)) (raw : RawSection)
    (k : String) (l : List (String × CVal))
    (hint : ∀ p ∈ sec, ∃ z, p.2 = CVal.int z) (h : setFloat sec raw k = some l) :
    ∀ p ∈ l, (p.1 = k → ∃ q, p.2 = CVal.float q) ∧
      (p.1 ≠ k → ∃ z, p.2 = CVal.int z) := by
  rw [setFloat] at h
  cases hq : (raw.find? (fun p => p.1 == k)).bind (fun p => parseFloatStr p.2) with
  | none => rw [hq] at h; exact absurd h (by simp)
  | some q =>
    rw [hq] at h
    obtain rfl := Option.some.inj h
    intro p hp
    rcases List.mem_map.mp hp with ⟨p0, hp0, rfl⟩
    by_cases hk : p0.1 = k
    · simp only [hk, beq_self_eq_true, if_true]
      exact ⟨fun _ => ⟨q, rfl⟩, fun hne => absurd rfl hne⟩
    · have hb : (p0.1 == k) = false := beq_eq_false_iff_ne.mpr hk
      simp only [hb, Bool.false_eq_true, if_false]
      exact ⟨fun heq => absurd heq hk, fun _ => hint p0 hp0⟩

/-- C10 (amended): whenever `load_config` returns a mapping, the
`edge_perc` field of each of the `sync`, `iso` and `async` sections is
float-typed and every other field is int-typed. -/
theorem load_config_types (raw : RawConfig)
    (cfg : List (String × List (String × CVal)))
    (hok : load_config raw = Except.ok cfg) :
    ∀ sect ∈ cfg, ∀ p ∈ sect.2,
      ((sect.1 = "sync" ∨ sect.1 = "iso" ∨ sect.1 = "async") ∧
          p.1 = "edge_perc" → ∃ q, p.2 = CVal.float q) ∧
      (¬((sect.1 = "sync" ∨ sect.1 = "iso" ∨ sect.1 = "async") ∧
          p.1 = "edge_perc") → ∃ z, p.2 = CVal.int z) := by
  unfold load_config at hok
  split at hok
  · rename_i blockR baseR syncR isoR asyncR hfb hfba hfs hfi hfa
    split at hok
    · rename_i block baseline sync0 iso0 async0 hcb hcba hcs hci hca
      split at hok
      · split at hok
        · rename_i syncF isoF asyncF hsf hisf hasf
          obtain rfl := Except.ok.inj hok
          intro sect hsect
          rcases List.mem_cons.mp hsect with rfl | hsect
          · intro p hp
            refine ⟨?_, fun _ => convertInt_int _ _ hcb p hp⟩
            rintro ⟨hor, -⟩
            rcases hor with h1 | h1 | h1 <;> simp at h1
          rcases List.mem_cons.mp hsect with rfl | hsect
          · intro p hp
            refine ⟨?_, fun _ => convertInt_int _ _ hcba p hp⟩
            rintro ⟨hor, -⟩
            rcases hor with h1 | h1 | h1 <;> simp at h1
          rcases List.mem_cons.mp hsect with rfl | hsect
          · intro p hp
            have ht := setFloat_types sync0 syncR "edge_perc" syncF
              (convertInt_int _ _ hcs) hsf p hp
            exact ⟨fun h => ht.1 h.2,
              fun hn => ht.2 fun hpk => hn ⟨Or.inl rfl, hpk⟩⟩
          rcases List.mem_cons.mp hsect with rfl | hsect
          · intro p hp
            have ht := setFloat_types iso0 isoR "edge_perc" isoF
              (convertInt_int _ _ hci) hisf p hp
            exact ⟨fun h => ht.1 h.2,
              fun hn => ht.2 fun hpk => hn ⟨Or.inr (Or.inl rfl), hpk⟩⟩
          rcases List.mem_cons.mp hsect with rfl | hsect
          · intro p hp
            have ht := setFloat_types async0 asyncR "edge_perc" asyncF
              (convertInt_int _ _ hca) hasf p hp
            exact ⟨fun h => ht.1 h.2,
              fun hn => ht.2 fun hpk => hn ⟨Or.inr (Or.inr rfl), hpk⟩⟩
          exact absurd hsect (by simp)
        · exact absurd hok (by simp)
      · exact absurd hok (by simp)
    · exact absurd hok (by simp)
  · exact absurd hok (by simp)

/-- The stimulus section of a well-formed raw configuration. -/
def stimRawGood : RawSection :=
  [("n_stimuli", "5"), ("n_omissions", "1"), ("edge_perc", "10")]

/-- A well-formed raw configuration: all sections, all keys, all values
integer-parseable. -/
def rawGood : RawConfig :=
  [("block", [("inter_block", "2")]),
   ("baseline", [("duration", "3")]),
   ("synchronous", stimRawGood),
   ("isochronous", stimRawGood),
   ("asynchronous", stimRawGood)]

/-- What `load_config` produces on a `stimRawGood` section. -/
def stimGood : List (String × CVal) :=
  [("n_stimuli", CVal.int 5), ("n_omissions", CVal.int 1),
   ("edge_perc", CVal.float (10 + 0 / (10 : ℚ) ^ (0 : ℕ)))]

/-- The mapping `load_config` returns on `rawGood`. -/
def cfgGood : List (String × List (String × CVal)) :=
  [("block", [("inter_block", CVal.int 2)]),
   ("baseline", [("duration", CVal.int 3)]),
   ("sync", stimGood), ("iso", stimGood), ("async", stimGood)]

/-- C10 witness: the amended claim instantiated on the concrete
configuration `rawGood`. -/
theorem load_config_types_witness :
    (("sync" = "sync" ∨ "sync" = "iso" ∨ "sync" = "async") ∧
        "edge_perc" = "edge_perc" →
      ∃ q, CVal.float (10 + 0 / (10 : ℚ) ^ (0 : ℕ)) = CVal.float q) ∧
    (¬(("sync" = "sync" ∨ "sync" = "iso" ∨ "sync" = "async") ∧
        "edge_perc" = "edge_perc") →
      ∃ z, CVal.float (10 + 0 / (10 : ℚ) ^ (0 : ℕ)) = CVal.int z) :=
  load_config_types rawGood cfgGood rfl ("sync", stimGood) (by simp [cfgGood])
    ("edge_perc", CVal.float (10 + 0 / (10 : ℚ) ^ (0 : ℕ)))
    (by simp [stimGood])

/-- A raw configuration with every required section and key present whose
`edge_perc` values are not integer literals. -/
def stimRawBad : RawSection :=
  [("n_stimuli", "5"), ("n_omissions", "1"), ("edge_perc", "10.5")]

/-- `rawGood` with fractional `edge_perc` values. -/
def rawBad : RawConfig :=
  [("block", [("inter_block", "2")]),
   ("baseline", [("duration", "3")]),
   ("synchronous", stimRawBad),
   ("isochronous", stimRawBad),
   ("asynchronous", stimRawBad)]

/-- C10 counterexample: `rawBad` contains every required section (and every
required key), yet `load_config` raises the `int(value)` error instead of
returning a typed mapping, because `int("10.5")` fails before the float
overwrite is reached. -/
theorem load_config_sections_insufficient :
    ((findSection rawBad "block").isSome = true ∧
     (findSection rawBad "baseline").isSome = true ∧
     (findSection rawBad "synchronous").isSome = true ∧
     (findSection rawBad "isochronous").isSome = true ∧
     (findSection rawBad "asynchronous").isSome = true) ∧
    load_config rawBad = .error .intParse :=
  ⟨⟨rfl, rfl, rfl, rfl, rfl⟩, rfl⟩

end Config

end CardioAudioSleep
